import Mathlib

/-!
Verification of the metrics/statistics subsystem of a Go benchmark harness
(packages `metrics`, statistics/plotter/collector/tracking files).

Modelling conventions:
* `float64` arithmetic is modelled exactly over `ℚ` (exact-real semantics of
  the source expressions).  `math.Sqrt` is modelled by `Rat.sqrt`; no verified
  property depends on the value of a square root except in `calculateR2`,
  where the source squares a quotient by a square root and the embedding uses
  the algebraically equal rational expression, justified over `ℝ` by
  `div_sqrt_sq_eq` below.
* `time.Duration` is an `int64` count of nanoseconds, modelled as `ℤ`;
  `Duration.Microseconds()` divides by 1000 truncating toward zero
  (`Int.tdiv · 1000`), `Duration.Nanoseconds()` is the identity.
* Go slices become `List`s; `sort.Float64s` is modelled by
  `List.insertionSort (· ≤ ·)` (a sorted permutation, as in the source).
* Go maps with zero-value defaults become total functions.
* `atomic.Uint64` counters become `ℕ` (no feasible run overflows 64 bits);
  `int64` quantities become `ℤ`.
-/

/-- `SampleData` from metrics/plotter.go: a single benchmark sample,
holding the per-operation sequential index and the elapsed time. -/
structure SampleData where
  SampleIndex : ℤ
  TotalTime : ℤ
deriving DecidableEq, Repr

/-- `float64(sample.TotalTime.Microseconds())`: nanoseconds divided by 1000,
truncated toward zero, then viewed as an exact rational. -/
def microsOf (s : SampleData) : ℚ := ((Int.tdiv s.TotalTime 1000 : ℤ) : ℚ)

/-- `math.MaxFloat64`, the initial accumulator of the running-minimum loop in
`calculateStatistics`. -/
def maxFloat64 : ℚ := (2 ^ 53 - 1) * 2 ^ 971

/-- `Statistics` from metrics/statistics.go. -/
structure Statistics where
  Mean : ℚ
  StdDev : ℚ
  Median : ℚ
  MAD : ℚ
  Min : ℚ
  Max : ℚ
  Count : ℤ
  Throughput : ℚ
  R2 : ℚ
deriving DecidableEq, Repr

/-- `ConfidenceInterval` from metrics/statistics.go. -/
structure ConfidenceInterval where
  LowerBound : ℚ
  Estimate : ℚ
  UpperBound : ℚ
deriving DecidableEq, Repr

/-- `confidenceLevel = 0.95` from metrics/statistics.go. -/
def confidenceLevel : ℚ := 95 / 100

/-- `bootstrapSamples = 100000` from metrics/statistics.go. -/
def bootstrapSamples : ℕ := 100000

/-- `calculateMedian` from metrics/statistics.go: median of a sorted slice. -/
def calculateMedian (sorted : List ℚ) : ℚ :=
  let n := sorted.length
  if n = 0 then 0
  else if n % 2 = 0 then (sorted.getD (n / 2 - 1) 0 + sorted.getD (n / 2) 0) / 2
  else sorted.getD (n / 2) 0

/-- `calculateMAD` from metrics/statistics.go: the median absolute deviation of
a sorted slice from its median. -/
def calculateMAD (sorted : List ℚ) (median : ℚ) : ℚ :=
  if sorted.length = 0 then 0
  else
    let deviations := sorted.map (fun val => |val - median|)
    calculateMedian (List.insertionSort (· ≤ ·) deviations)

/-- Accumulation of `sumX` in the `calculateR2` loop: the regression
abscissae are `x, x+1, x+2, …`, one per remaining sample. -/
def sumXFrom : List ℚ → ℚ → ℚ
  | [], _ => 0
  | _ :: t, x => x + sumXFrom t (x + 1)

/-- Accumulation of `sumX2` in the `calculateR2` loop. -/
def sumX2From : List ℚ → ℚ → ℚ
  | [], _ => 0
  | _ :: t, x => x * x + sumX2From t (x + 1)

/-- Accumulation of `sumXY` in the `calculateR2` loop. -/
def sumXYFrom : List ℚ → ℚ → ℚ
  | [], _ => 0
  | y :: t, x => x * y + sumXYFrom t (x + 1)

/-- Accumulation of `sumY` in the `calculateR2` loop. -/
def sumYOf (ys : List ℚ) : ℚ := ys.sum

/-- Accumulation of `sumY2` in the `calculateR2` loop. -/
def sumY2Of (ys : List ℚ) : ℚ := (ys.map (fun y => y * y)).sum

/-- The body of `calculateR2` (metrics/statistics.go) after the accumulation
loop, as a function of the five loop sums: the zero-denominator guard, the
zero-Y-variance guard, the squared correlation coefficient, and the clamp to
`[0,1]`.  `(numerator / math.Sqrt(varX*varY))²` is embedded as
`numerator² / (varX·varY)`, its exact value (see `div_sqrt_sq_eq`). -/
def r2OfSums (n sumX sumY sumXY sumX2 sumY2 : ℚ) : ℚ :=
  let numerator := n * sumXY - sumX * sumY
  let denominator := n * sumX2 - sumX * sumX
  if denominator = 0 then 0
  else
    let varX := n * sumX2 - sumX * sumX
    let varY := n * sumY2 - sumY * sumY
    if varY = 0 then 1
    else
      let r2 := numerator * numerator / (varX * varY)
      let r2a := if r2 < 0 then 0 else r2
      if 1 < r2a then 1 else r2a

/-- `calculateR2` from metrics/statistics.go: least-squares regression of
elapsed time (µs) against the 1-based sample index. -/
def calculateR2 (samples : List SampleData) : ℚ :=
  if samples.length < 2 then 1
  else
    let ys := samples.map microsOf
    r2OfSums (samples.length : ℚ) (sumXFrom ys 1) (sumYOf ys) (sumXYFrom ys 1)
      (sumX2From ys 1) (sumY2Of ys)

/-- `calculateStatistics` from metrics/statistics.go. -/
def calculateStatistics (samples : List SampleData) : Statistics :=
  if samples.length = 0 then
    { Mean := 0, StdDev := 0, Median := 0, MAD := 0, Min := 0, Max := 0,
      Count := 0, Throughput := 0, R2 := 0 }
  else
    let times := samples.map microsOf
    let sum := times.sum
    let minT := times.foldl (fun m t => if t < m then t else m) maxFloat64
    let maxT := times.foldl (fun m t => if t > m then t else m) 0
    let mean := sum / (samples.length : ℚ)
    let varianceSum := (times.map (fun t => (t - mean) * (t - mean))).sum
    let stdDev := Rat.sqrt (varianceSum / (samples.length : ℚ))
    let sortedTimes := List.insertionSort (· ≤ ·) times
    let median := calculateMedian sortedTimes
    let mad := calculateMAD sortedTimes median
    let meanSeconds := mean / 1000000
    let throughput := 1 / meanSeconds
    let r2 := calculateR2 samples
    { Mean := mean, StdDev := stdDev, Median := median, MAD := mad,
      Min := minT, Max := maxT, Count := (samples.length : ℤ),
      Throughput := throughput, R2 := r2 }

/-- Minimum of a list of rationals (`0` for the empty list); the "minimum of
the elapsed-time values" the specification speaks about. -/
def listMin : List ℚ → ℚ
  | [] => 0
  | x :: t => t.foldl min x

/-- Maximum of a list of rationals (`0` for the empty list). -/
def listMax : List ℚ → ℚ
  | [] => 0
  | x :: t => t.foldl max x

/-- The property that the `R2` value is the squared correlation coefficient —
computed with a real square root, exactly as the float source — clamped to
`[0, 1]`. -/
def R2AsCorrelation (samples : List SampleData) : Prop :=
  ((calculateR2 samples : ℚ) : ℝ)
    = max 0 (min 1
        (((((samples.length : ℚ) * sumXYFrom (samples.map microsOf) 1
              - sumXFrom (samples.map microsOf) 1 * sumYOf (samples.map microsOf) : ℚ) : ℝ)
            / Real.sqrt ((((samples.length : ℚ) * sumX2From (samples.map microsOf) 1
                  - sumXFrom (samples.map microsOf) 1 * sumXFrom (samples.map microsOf) 1)
                * ((samples.length : ℚ) * sumY2Of (samples.map microsOf)
                  - sumYOf (samples.map microsOf) * sumYOf (samples.map microsOf)) : ℚ) : ℝ)) ^ 2))

/-- `bootstrapResample` from metrics/statistics.go.  The random generator is
modelled by an arbitrary choice function `rng`: the index drawn for position
`j` of resample `i` is `rng i j % times.length` (every possible sequence of
`rand.Intn(len(times))` draws is realised by some such function).  The
`int(float64 * float64)` index conversions truncate; their arguments are
non-negative, so they are `Int.floor`. -/
def bootstrapResample (samples : List SampleData) (statFunc : List ℚ → ℚ)
    (numResamples : ℕ) (rng : ℕ → ℕ → ℕ) : ConfidenceInterval :=
  if samples.length = 0 then { LowerBound := 0, Estimate := 0, UpperBound := 0 }
  else
    let times := samples.map microsOf
    let estimate := statFunc times
    let bootstrapStats := (List.range numResamples).map fun i =>
      statFunc ((List.range times.length).map fun j =>
        times.getD (rng i j % times.length) 0)
    let sorted := List.insertionSort (· ≤ ·) bootstrapStats
    let alpha := 1 - confidenceLevel
    let lowerIdx0 : ℤ := ⌊(numResamples : ℚ) * (alpha / 2)⌋
    let upperIdx0 : ℤ := ⌊(numResamples : ℚ) * (1 - alpha / 2)⌋
    let lowerIdx := if lowerIdx0 < 0 then 0 else lowerIdx0
    let upperIdx := if (numResamples : ℤ) ≤ upperIdx0 then (numResamples : ℤ) - 1
      else upperIdx0
    { LowerBound := sorted.getD lowerIdx.toNat 0,
      Estimate := estimate,
      UpperBound := sorted.getD upperIdx.toNat 0 }

/-- The bootstrap-statistic list of `bootstrapResample` (the else-branch of
the source), named for proof organization. -/
def bootstrapStatsOf (samples : List SampleData) (statFunc : List ℚ → ℚ)
    (numResamples : ℕ) (rng : ℕ → ℕ → ℕ) : List ℚ :=
  (List.range numResamples).map fun i =>
    statFunc ((List.range (samples.map microsOf).length).map fun j =>
      (samples.map microsOf).getD (rng i j % (samples.map microsOf).length) 0)

/-- The clamped lower percentile index of `bootstrapResample`. -/
def lowerIdxOf (n : ℕ) : ℤ :=
  let l0 : ℤ := ⌊(n : ℚ) * ((1 - confidenceLevel) / 2)⌋
  if l0 < 0 then 0 else l0

/-- The clamped upper percentile index of `bootstrapResample`. -/
def upperIdxOf (n : ℕ) : ℤ :=
  let u0 : ℤ := ⌊(n : ℚ) * (1 - (1 - confidenceLevel) / 2)⌋
  if (n : ℤ) ≤ u0 then (n : ℤ) - 1 else u0

/-- Modelled from the spec: the latency histogram comes from the external
`hdrhistogram-go` dependency, which is not part of the repository.  Per the
specification (§4.1), `record` fails silently — drops the value — when the
value is outside the configured trackable range rather than aborting;
`totalCount` counts the recorded values. -/
structure Histogram where
  lowestTrackable : ℤ
  highestTrackable : ℤ
  values : List ℤ
deriving DecidableEq, Repr

/-- `hdrhistogram.New(min, max, sigfigs)`: an empty histogram with the given
trackable range. -/
def Histogram.new (lo hi : ℤ) : Histogram :=
  { lowestTrackable := lo, highestTrackable := hi, values := [] }

/-- Modelled from the spec: `RecordValue` of the external histogram records
the value, silently dropping it when out of range (negative, or above the
maximum trackable value) rather than aborting (spec §4.1). -/
def Histogram.recordValue (h : Histogram) (v : ℤ) : Histogram :=
  if v < 0 ∨ h.highestTrackable < v then h
  else { h with values := h.values ++ [v] }

/-- `totalCount()`. -/
def Histogram.totalCount (h : Histogram) : ℕ := h.values.length

/-- `Collector` from the metrics collector file: one count and one latency
histogram per operation kind, plus the read-amplification accumulators. -/
structure Collector where
  readCount : ℕ
  updateCount : ℕ
  insertCount : ℕ
  scanCount : ℕ
  deleteCount : ℕ
  readLatency : Histogram
  updateLatency : Histogram
  insertLatency : Histogram
  scanLatency : Histogram
  deleteLatency : Histogram
  readAmpCount : ℕ
  readAmpSum : ℕ
deriving DecidableEq, Repr

/-- `NewCollector()`: histograms over `[1, 60×10⁹]` ns; all counters zero. -/
def NewCollector : Collector :=
  { readCount := 0, updateCount := 0, insertCount := 0, scanCount := 0,
    deleteCount := 0,
    readLatency := Histogram.new 1 60000000000,
    updateLatency := Histogram.new 1 60000000000,
    insertLatency := Histogram.new 1 60000000000,
    scanLatency := Histogram.new 1 60000000000,
    deleteLatency := Histogram.new 1 60000000000,
    readAmpCount := 0, readAmpSum := 0 }

/-- `Collector.RecordRead` (latency in nanoseconds, as
`latency.Nanoseconds()`). -/
def Collector.RecordRead (c : Collector) (latency : ℤ) : Collector :=
  { c with readCount := c.readCount + 1,
           readLatency := c.readLatency.recordValue latency }

/-- `Collector.RecordReadWithAmp`: a read record plus, only for positive
amplification, the two amplification accumulators (`uint64(readAmp)` is
`Int.toNat` on the positive branch). -/
def Collector.RecordReadWithAmp (c : Collector) (latency readAmp : ℤ) : Collector :=
  let c1 := c.RecordRead latency
  if 0 < readAmp then
    { c1 with readAmpCount := c1.readAmpCount + 1,
              readAmpSum := c1.readAmpSum + readAmp.toNat }
  else c1

/-- `Collector.RecordUpdate`. -/
def Collector.RecordUpdate (c : Collector) (latency : ℤ) : Collector :=
  { c with updateCount := c.updateCount + 1,
           updateLatency := c.updateLatency.recordValue latency }

/-- `Collector.RecordInsert`. -/
def Collector.RecordInsert (c : Collector) (latency : ℤ) : Collector :=
  { c with insertCount := c.insertCount + 1,
           insertLatency := c.insertLatency.recordValue latency }

/-- `Collector.RecordScan`. -/
def Collector.RecordScan (c : Collector) (latency : ℤ) : Collector :=
  { c with scanCount := c.scanCount + 1,
           scanLatency := c.scanLatency.recordValue latency }

/-- `Collector.RecordDelete`. -/
def Collector.RecordDelete (c : Collector) (latency : ℤ) : Collector :=
  { c with deleteCount := c.deleteCount + 1,
           deleteLatency := c.deleteLatency.recordValue latency }

/-- The closed enumeration of tracked operation kinds. -/
inductive OpKind where
  | read
  | update
  | insert
  | scan
  | delete
deriving DecidableEq, Repr

/-- Dispatch one recorded latency to the corresponding `RecordX` method. -/
def applyRecord (c : Collector) (ev : OpKind × ℤ) : Collector :=
  match ev.1 with
  | .read => c.RecordRead ev.2
  | .update => c.RecordUpdate ev.2
  | .insert => c.RecordInsert ev.2
  | .scan => c.RecordScan ev.2
  | .delete => c.RecordDelete ev.2

/-- A whole sequence of recorded latencies, in order. -/
def applyRecords (c : Collector) (evs : List (OpKind × ℤ)) : Collector :=
  evs.foldl applyRecord c

/-- The atomic count of the given operation kind. -/
def opCount (c : Collector) : OpKind → ℕ
  | .read => c.readCount
  | .update => c.updateCount
  | .insert => c.insertCount
  | .scan => c.scanCount
  | .delete => c.deleteCount

/-- The latency histogram of the given operation kind. -/
def opHist (c : Collector) : OpKind → Histogram
  | .read => c.readLatency
  | .update => c.updateLatency
  | .insert => c.insertLatency
  | .scan => c.scanLatency
  | .delete => c.deleteLatency

/-- `BenchmarkPlots` from metrics/plotter.go: the per-operation sample store.
The Go maps (zero-valued at missing keys) become total functions. -/
structure BenchmarkPlots where
  samples : String → List SampleData
  sampleCounters : String → ℤ

/-- `NewBenchmarkPlots()`. -/
def NewBenchmarkPlots : BenchmarkPlots :=
  { samples := fun _ => [], sampleCounters := fun _ => 0 }

/-- `BenchmarkPlots.AddSample`: increments the operation's counter and
appends a sample carrying the new counter value as its index. -/
def BenchmarkPlots.AddSample (bp : BenchmarkPlots) (operation : String)
    (totalTime : ℤ) : BenchmarkPlots :=
  let newCount := bp.sampleCounters operation + 1
  { samples := fun k => if k = operation
      then bp.samples operation
        ++ [{ SampleIndex := newCount, TotalTime := totalTime }]
      else bp.samples k,
    sampleCounters := fun k => if k = operation then newCount
      else bp.sampleCounters k }

/-- Feeding a whole sequence of `(operation, totalTime)` samples in order. -/
def addSamples (bp : BenchmarkPlots) (evs : List (String × ℤ)) : BenchmarkPlots :=
  evs.foldl (fun b e => b.AddSample e.1 e.2) bp

/-- `1, 2, …, n`: the expected dense gapless sample-index sequence. -/
def indexRamp (n : ℕ) : List ℤ := (List.range n).map (fun i => (i : ℤ) + 1)

/-- The store invariant: for every key, the counter equals the number of
stored samples and the stored indices are exactly `1..n` in order. -/
def PlotsInv (bp : BenchmarkPlots) : Prop :=
  ∀ k : String, bp.sampleCounters k = ((bp.samples k).length : ℤ) ∧
    (bp.samples k).map (fun s => s.SampleIndex) = indexRamp (bp.samples k).length

/-- `OperationTiming` from metrics/metrics.go. -/
structure OperationTiming where
  Count : ℤ
  TotalTime : ℤ
  StartTime : ℤ
deriving DecidableEq, Repr

/-- The mutable state of an `OperationTracker`: the per-operation timings map
(`none` at missing keys) and the sample store.  The wrapped delegate DB is
modelled per call by the result/error values it returns. -/
structure TrackerState where
  timings : String → Option OperationTiming
  plots : BenchmarkPlots

/-- `NewOperationTracker` (the tracker-owned state). -/
def NewOperationTracker : TrackerState :=
  { timings := fun _ => none, plots := NewBenchmarkPlots }

/-- `OperationTracker.track`: `elapsed = time.Since(start)` is `now − start`
for the wall-clock oracle `now`; a missing timing entry is created with the
given start time, then its count is incremented, the elapsed time
accumulated, and the sample appended to the store. -/
def track (st : TrackerState) (op : String) (start now : ℤ) : TrackerState :=
  let elapsed := now - start
  let base := match st.timings op with
    | some t => t
    | none => { Count := 0, TotalTime := 0, StartTime := start }
  let updated := { base with Count := base.Count + 1,
                             TotalTime := base.TotalTime + elapsed }
  { timings := fun k => if k = op then some updated else st.timings k,
    plots := st.plots.AddSample op elapsed }

/-- `OperationTracker.Read`: calls the delegate (whose returned value and
error are `result` and `err`), tracks `"READ"`, and returns the delegate's
result and error. -/
def OperationTracker.Read {α ε : Type} (result : α) (err : Option ε)
    (start now : ℤ) (st : TrackerState) : (α × Option ε) × TrackerState :=
  ((result, err), track st "READ" start now)

/-- `OperationTracker.Scan`. -/
def OperationTracker.Scan {β ε : Type} (result : β) (err : Option ε)
    (start now : ℤ) (st : TrackerState) : (β × Option ε) × TrackerState :=
  ((result, err), track st "SCAN" start now)

/-- `OperationTracker.Insert`. -/
def OperationTracker.Insert {ε : Type} (err : Option ε) (start now : ℤ)
    (st : TrackerState) : Option ε × TrackerState :=
  (err, track st "INSERT" start now)

/-- `OperationTracker.Update`. -/
def OperationTracker.Update {ε : Type} (err : Option ε) (start now : ℤ)
    (st : TrackerState) : Option ε × TrackerState :=
  (err, track st "UPDATE" start now)

/-- `OperationTracker.Delete`. -/
def OperationTracker.Delete {ε : Type} (err : Option ε) (start now : ℤ)
    (st : TrackerState) : Option ε × TrackerState :=
  (err, track st "DELETE" start now)

/-- `TrackedDB.Read` from metrics/tracked_db.go: calls the delegate, records
the read latency `time.Since(start)` into the collector, and returns the
delegate's result and error. -/
def TrackedDB.Read {α ε : Type} (result : α) (err : Option ε) (start now : ℤ)
    (c : Collector) : (α × Option ε) × Collector :=
  ((result, err), c.RecordRead (now - start))

/-- `TrackedDB.Scan`. -/
def TrackedDB.Scan {β ε : Type} (result : β) (err : Option ε) (start now : ℤ)
    (c : Collector) : (β × Option ε) × Collector :=
  ((result, err), c.RecordScan (now - start))

/-- `TrackedDB.Update`. -/
def TrackedDB.Update {ε : Type} (err : Option ε) (start now : ℤ)
    (c : Collector) : Option ε × Collector :=
  (err, c.RecordUpdate (now - start))

/-- `TrackedDB.Insert`. -/
def TrackedDB.Insert {ε : Type} (err : Option ε) (start now : ℤ)
    (c : Collector) : Option ε × Collector :=
  (err, c.RecordInsert (now - start))

/-- `TrackedDB.Delete`. -/
def TrackedDB.Delete {ε : Type} (err : Option ε) (start now : ℤ)
    (c : Collector) : Option ε × Collector :=
  (err, c.RecordDelete (now - start))

lemma foldl_min_le_init (l : List ℚ) (a : ℚ) : l.foldl min a ≤ a := by
  induction l generalizing a with
  | nil => simp
  | cons x t ih =>
    simpa using (ih (min a x)).trans (min_le_left a x)

lemma foldl_min_le_mem (l : List ℚ) (a x : ℚ) (hx : x ∈ l) : l.foldl min a ≤ x := by
  induction l generalizing a with
  | nil => cases hx
  | cons y t ih =>
    rcases List.mem_cons.mp hx with rfl | hm
    · simpa using (foldl_min_le_init t (min a x)).trans (min_le_right a x)
    · simpa using ih (min a y) hm

lemma init_le_foldl_max (l : List ℚ) (a : ℚ) : a ≤ l.foldl max a := by
  induction l generalizing a with
  | nil => simp
  | cons x t ih =>
    simpa using (le_max_left a x).trans (ih (max a x))

lemma mem_le_foldl_max (l : List ℚ) (a x : ℚ) (hx : x ∈ l) : x ≤ l.foldl max a := by
  induction l generalizing a with
  | nil => cases hx
  | cons y t ih =>
    rcases List.mem_cons.mp hx with rfl | hm
    · simpa using (le_max_right a x).trans (init_le_foldl_max t (max a x))
    · simpa using ih (max a y) hm

lemma listMin_le_of_mem {l : List ℚ} {x : ℚ} (hx : x ∈ l) : listMin l ≤ x := by
  cases l with
  | nil => cases hx
  | cons y t =>
    rcases List.mem_cons.mp hx with rfl | hm
    · exact foldl_min_le_init t x
    · exact foldl_min_le_mem t y x hm

lemma le_listMax_of_mem {l : List ℚ} {x : ℚ} (hx : x ∈ l) : x ≤ listMax l := by
  cases l with
  | nil => cases hx
  | cons y t =>
    rcases List.mem_cons.mp hx with rfl | hm
    · exact init_le_foldl_max t x
    · exact mem_le_foldl_max t y x hm

lemma getD_mem_of_lt (l : List ℚ) (i : ℕ) (h : i < l.length) : l.getD i 0 ∈ l := by
  rw [List.getD_eq_getElem _ _ h]
  exact List.getElem_mem h

/-- Any lower bound of all elements bounds the median of the sorted list. -/
lemma le_calculateMedian (l : List ℚ) (h : l ≠ []) (a : ℚ)
    (ha : ∀ x ∈ l, a ≤ x) :
    a ≤ calculateMedian (List.insertionSort (· ≤ ·) l) := by
  set s := List.insertionSort (· ≤ ·) l with hs
  have hperm : List.Perm s l := List.perm_insertionSort _ l
  have hpos : 0 < s.length := by
    rw [hperm.length_eq]
    exact List.length_pos.mpr h
  have hne : s.length ≠ 0 := Nat.pos_iff_ne_zero.mp hpos
  have hmem : ∀ i, i < s.length → a ≤ s.getD i 0 := fun i hi =>
    ha _ (hperm.mem_iff.mp (getD_mem_of_lt s i hi))
  have hhalf : s.length / 2 < s.length := Nat.div_lt_self hpos (by norm_num)
  have hhalf1 : s.length / 2 - 1 < s.length := lt_of_le_of_lt (Nat.sub_le _ _) hhalf
  simp only [calculateMedian]
  rw [if_neg hne]
  by_cases hpar : s.length % 2 = 0
  · rw [if_pos hpar]
    have h1 := hmem _ hhalf1
    have h2 := hmem _ hhalf
    linarith
  · rw [if_neg hpar]
    exact hmem _ hhalf

/-- Any upper bound of all elements bounds the median of the sorted list. -/
lemma calculateMedian_le (l : List ℚ) (h : l ≠ []) (b : ℚ)
    (hb : ∀ x ∈ l, x ≤ b) :
    calculateMedian (List.insertionSort (· ≤ ·) l) ≤ b := by
  set s := List.insertionSort (· ≤ ·) l with hs
  have hperm : List.Perm s l := List.perm_insertionSort _ l
  have hpos : 0 < s.length := by
    rw [hperm.length_eq]
    exact List.length_pos.mpr h
  have hne : s.length ≠ 0 := Nat.pos_iff_ne_zero.mp hpos
  have hmem : ∀ i, i < s.length → s.getD i 0 ≤ b := fun i hi =>
    hb _ (hperm.mem_iff.mp (getD_mem_of_lt s i hi))
  have hhalf : s.length / 2 < s.length := Nat.div_lt_self hpos (by norm_num)
  have hhalf1 : s.length / 2 - 1 < s.length := lt_of_le_of_lt (Nat.sub_le _ _) hhalf
  simp only [calculateMedian]
  rw [if_neg hne]
  by_cases hpar : s.length % 2 = 0
  · rw [if_pos hpar]
    have h1 := hmem _ hhalf1
    have h2 := hmem _ hhalf
    linarith
  · rw [if_neg hpar]
    exact hmem _ hhalf

lemma length_mul_le_sum (l : List ℚ) (a : ℚ) (h : ∀ x ∈ l, a ≤ x) :
    a * l.length ≤ l.sum := by
  induction l with
  | nil => simp
  | cons x t ih =>
    have hx := h x (List.mem_cons_self x t)
    have ht := ih fun y hy => h y (List.mem_cons_of_mem x hy)
    simp only [List.sum_cons, List.length_cons]
    push_cast
    linarith

lemma sum_le_length_mul (l : List ℚ) (b : ℚ) (h : ∀ x ∈ l, x ≤ b) :
    l.sum ≤ b * l.length := by
  induction l with
  | nil => simp
  | cons x t ih =>
    have hx := h x (List.mem_cons_self x t)
    have ht := ih fun y hy => h y (List.mem_cons_of_mem x hy)
    simp only [List.sum_cons, List.length_cons]
    push_cast
    linarith

lemma ite_lt_eq_min :
    (fun (m t : ℚ) => if t < m then t else m) = fun m t => min m t := by
  funext m t
  rcases lt_or_le t m with hc | hc
  · rw [if_pos hc, min_eq_right hc.le]
  · rw [if_neg (not_lt.mpr hc), min_eq_left hc]

lemma ite_gt_eq_max :
    (fun (m t : ℚ) => if t > m then t else m) = fun m t => max m t := by
  funext m t
  rcases le_or_lt t m with hc | hc
  · rw [if_neg (not_lt.mpr hc), max_eq_left hc]
  · rw [if_pos hc, max_eq_right hc.le]

lemma le_mean (l : List ℚ) (h : l ≠ []) (a : ℚ) (ha : ∀ x ∈ l, a ≤ x) :
    a ≤ l.sum / (l.length : ℚ) := by
  have hpos : (0 : ℚ) < l.length := by exact_mod_cast List.length_pos.mpr h
  rw [le_div_iff₀ hpos]
  simpa using length_mul_le_sum l a ha

lemma mean_le (l : List ℚ) (h : l ≠ []) (b : ℚ) (hb : ∀ x ∈ l, x ≤ b) :
    l.sum / (l.length : ℚ) ≤ b := by
  have hpos : (0 : ℚ) < l.length := by exact_mod_cast List.length_pos.mpr h
  rw [div_le_iff₀ hpos]
  simpa using sum_le_length_mul l b hb

/-- **C5**: `calculateStatistics` applied to an empty sample sequence returns
the all-zero `Statistics` value (every field zero), with no division
evaluated. -/
theorem calculateStatistics_empty :
    calculateStatistics [] =
      { Mean := 0, StdDev := 0, Median := 0, MAD := 0, Min := 0, Max := 0,
        Count := 0, Throughput := 0, R2 := 0 } := rfl

/-- **C1**: for every non-empty sample sequence, the `Mean` field is the
arithmetic mean of the elapsed times in microseconds and the `Throughput`
field is `1 / (mean expressed in seconds)` — inverse-of-mean throughput. -/
theorem throughput_inverse_mean (samples : List SampleData) (h : samples ≠ []) :
    (calculateStatistics samples).Mean
      = (samples.map microsOf).sum / (samples.length : ℚ) ∧
    (calculateStatistics samples).Throughput
      = 1 / ((samples.map microsOf).sum / (samples.length : ℚ) / 1000000) := by
  have hl : ¬ samples.length = 0 := by simpa using h
  constructor <;> simp [calculateStatistics, hl]

/-- Witness for **C1**: applying `throughput_inverse_mean` to the three
samples `[1000µs, 1000µs, 1000µs]`; the computed throughput is 1000 ops/sec. -/
theorem throughput_inverse_mean_witness :
    (([⟨1, 1000000⟩, ⟨2, 1000000⟩, ⟨3, 1000000⟩] : List SampleData) ≠ []) ∧
    (calculateStatistics [⟨1, 1000000⟩, ⟨2, 1000000⟩, ⟨3, 1000000⟩]).Throughput
      = 1 / ((calculateStatistics [⟨1, 1000000⟩, ⟨2, 1000000⟩, ⟨3, 1000000⟩]).Mean
          / 1000000) ∧
    (calculateStatistics [⟨1, 1000000⟩, ⟨2, 1000000⟩, ⟨3, 1000000⟩]).Throughput
      = 1000 := by
  have h := throughput_inverse_mean [⟨1, 1000000⟩, ⟨2, 1000000⟩, ⟨3, 1000000⟩]
    (by decide)
  refine ⟨by decide, ?_, ?_⟩
  · rw [h.2, h.1]
  · rw [h.2]
    simp [microsOf, show Int.tdiv 1000000 1000 = (1000 : ℤ) from by decide]
    norm_num

/-- **C8**: for every non-empty sample sequence, `calculateStatistics` returns
`Count = len(samples)`, and its `Median` and `Mean` lie between the minimum
and the maximum of the elapsed-time values in microseconds; moreover the same
inequalities hold with the returned `Min` and `Max` fields as bounds. -/
theorem statistics_count_min_max (samples : List SampleData) (h : samples ≠ []) :
    (calculateStatistics samples).Count = (samples.length : ℤ) ∧
    listMin (samples.map microsOf) ≤ (calculateStatistics samples).Median ∧
    (calculateStatistics samples).Median ≤ listMax (samples.map microsOf) ∧
    listMin (samples.map microsOf) ≤ (calculateStatistics samples).Mean ∧
    (calculateStatistics samples).Mean ≤ listMax (samples.map microsOf) ∧
    (calculateStatistics samples).Min ≤ (calculateStatistics samples).Median ∧
    (calculateStatistics samples).Median ≤ (calculateStatistics samples).Max ∧
    (calculateStatistics samples).Min ≤ (calculateStatistics samples).Mean ∧
    (calculateStatistics samples).Mean ≤ (calculateStatistics samples).Max := by
  have hl : ¬ samples.length = 0 := by simpa using h
  have hmap : samples.map microsOf ≠ [] := by simpa using h
  have hMedian : (calculateStatistics samples).Median
      = calculateMedian (List.insertionSort (· ≤ ·) (samples.map microsOf)) := by
    simp [calculateStatistics, hl]
  have hMean : (calculateStatistics samples).Mean
      = (samples.map microsOf).sum / ((samples.map microsOf).length : ℚ) := by
    simp [calculateStatistics, hl]
  have hCount : (calculateStatistics samples).Count = (samples.length : ℤ) := by
    simp [calculateStatistics, hl]
  have hMin : (calculateStatistics samples).Min
      = (samples.map microsOf).foldl min maxFloat64 := by
    simp [calculateStatistics, hl, ite_lt_eq_min]
  have hMax : (calculateStatistics samples).Max
      = (samples.map microsOf).foldl max 0 := by
    simp [calculateStatistics, hl, ite_gt_eq_max]
  refine ⟨hCount, ?_, ?_, ?_, ?_, ?_, ?_, ?_, ?_⟩
  · rw [hMedian]
    exact le_calculateMedian _ hmap _ fun x hx => listMin_le_of_mem hx
  · rw [hMedian]
    exact calculateMedian_le _ hmap _ fun x hx => le_listMax_of_mem hx
  · rw [hMean]
    exact le_mean _ hmap _ fun x hx => listMin_le_of_mem hx
  · rw [hMean]
    exact mean_le _ hmap _ fun x hx => le_listMax_of_mem hx
  · rw [hMedian, hMin]
    exact le_calculateMedian _ hmap _ fun x hx => foldl_min_le_mem _ _ _ hx
  · rw [hMedian, hMax]
    exact calculateMedian_le _ hmap _ fun x hx => mem_le_foldl_max _ _ _ hx
  · rw [hMean, hMin]
    exact le_mean _ hmap _ fun x hx => foldl_min_le_mem _ _ _ hx
  · rw [hMean, hMax]
    exact mean_le _ hmap _ fun x hx => mem_le_foldl_max _ _ _ hx

/-- Witness for **C8**: the theorem applied to three concrete samples. -/
theorem statistics_count_min_max_witness :
    (([⟨1, 5000000⟩, ⟨2, 1000000⟩, ⟨3, 3000000⟩] : List SampleData) ≠ []) ∧
    ((calculateStatistics
        [⟨1, 5000000⟩, ⟨2, 1000000⟩, ⟨3, 3000000⟩]).Count = 3 ∧
      (calculateStatistics [⟨1, 5000000⟩, ⟨2, 1000000⟩, ⟨3, 3000000⟩]).Min
        ≤ (calculateStatistics [⟨1, 5000000⟩, ⟨2, 1000000⟩, ⟨3, 3000000⟩]).Median) := by
  have h := statistics_count_min_max
    [⟨1, 5000000⟩, ⟨2, 1000000⟩, ⟨3, 3000000⟩] (by decide)
  exact ⟨by decide, h.1, h.2.2.2.2.2.1⟩

lemma sumXFrom_eq (ys : List ℚ) (x : ℚ) :
    sumXFrom ys x
      = (ys.length : ℚ) * x + (ys.length : ℚ) * ((ys.length : ℚ) - 1) / 2 := by
  induction ys generalizing x with
  | nil => simp [sumXFrom]
  | cons y t ih =>
    simp only [sumXFrom, ih (x + 1), List.length_cons]
    push_cast
    ring

lemma sumX2From_eq (ys : List ℚ) (x : ℚ) :
    sumX2From ys x
      = (ys.length : ℚ) * x ^ 2 + (ys.length : ℚ) * ((ys.length : ℚ) - 1) * x
        + ((ys.length : ℚ) - 1) * (ys.length : ℚ) * (2 * (ys.length : ℚ) - 1) / 6 := by
  induction ys generalizing x with
  | nil => simp [sumX2From]
  | cons y t ih =>
    simp only [sumX2From, ih (x + 1), List.length_cons]
    push_cast
    ring

/-- The X-variance term of the regression over 1-based indices in closed form. -/
lemma varX_eq (ys : List ℚ) :
    (ys.length : ℚ) * sumX2From ys 1 - sumXFrom ys 1 * sumXFrom ys 1
      = (ys.length : ℚ) ^ 2 * ((ys.length : ℚ) ^ 2 - 1) / 12 := by
  rw [sumXFrom_eq, sumX2From_eq]
  ring

/-- With at least two samples the index variance is strictly positive: the
defensive zero-X-variance branch of `calculateR2` is unreachable. -/
lemma varX_pos (ys : List ℚ) (h : 2 ≤ ys.length) :
    0 < (ys.length : ℚ) * sumX2From ys 1 - sumXFrom ys 1 * sumXFrom ys 1 := by
  rw [varX_eq]
  have hn : (2 : ℚ) ≤ (ys.length : ℚ) := by exact_mod_cast h
  have h4 : (4 : ℚ) ≤ (ys.length : ℚ) ^ 2 := by nlinarith
  have h1 : (0 : ℚ) < (ys.length : ℚ) ^ 2 * ((ys.length : ℚ) ^ 2 - 1) := by nlinarith
  exact div_pos h1 (by norm_num)

lemma sumY2Of_nonneg (ys : List ℚ) : 0 ≤ sumY2Of ys := by
  refine List.sum_nonneg fun x hx => ?_
  obtain ⟨y, _, rfl⟩ := List.mem_map.mp hx
  exact mul_self_nonneg y

/-- Cauchy–Schwarz for the Y-sums: the Y-variance term is non-negative. -/
lemma list_sq_sum_le_card_mul_sum_sq (ys : List ℚ) :
    sumYOf ys * sumYOf ys ≤ (ys.length : ℚ) * sumY2Of ys := by
  induction ys with
  | nil => simp [sumYOf, sumY2Of]
  | cons y t ih =>
    have hQ : 0 ≤ sumY2Of t := sumY2Of_nonneg t
    simp only [sumYOf, sumY2Of, List.sum_cons, List.map_cons, List.length_cons] at *
    rcases Nat.eq_zero_or_pos t.length with h0 | hpos
    · have ht : t = [] := List.length_eq_zero.mp h0
      subst ht
      simp
    · have hLpos : (0 : ℚ) < (t.length : ℚ) := by exact_mod_cast hpos
      have hB : (0 : ℚ) ≤ (t.length : ℚ) * (t.map (fun y => y * y)).sum
          - t.sum * t.sum := by
        linarith [ih]
      push_cast
      nlinarith [ih, sq_nonneg ((t.length : ℚ) * y - t.sum), hLpos, hB,
        mul_nonneg hLpos.le hB]

/-- Over `ℝ`, squaring a quotient by a square root of a positive number gives
the quotient of the square: the exact value of the float expression
`(numerator / math.Sqrt(v))²` in `calculateR2`. -/
lemma div_sqrt_sq_eq (a v : ℝ) (hv : 0 < v) :
    (a / Real.sqrt v) ^ 2 = a ^ 2 / v := by
  rw [div_pow, Real.sq_sqrt hv.le]

lemma r2OfSums_mem_unit (n sX sY sXY sX2 sY2 : ℚ) :
    0 ≤ r2OfSums n sX sY sXY sX2 sY2 ∧ r2OfSums n sX sY sXY sX2 sY2 ≤ 1 := by
  simp only [r2OfSums]
  by_cases h1 : n * sX2 - sX * sX = 0
  · rw [if_pos h1]
    norm_num
  · rw [if_neg h1]
    by_cases h2 : n * sY2 - sY * sY = 0
    · rw [if_pos h2]
      norm_num
    · rw [if_neg h2]
      by_cases h3 : (n * sXY - sX * sY) * (n * sXY - sX * sY)
          / ((n * sX2 - sX * sX) * (n * sY2 - sY * sY)) < 0
      · rw [if_pos h3]
        norm_num
      · rw [if_neg h3]
        push_neg at h3
        by_cases h5 : 1 < (n * sXY - sX * sY) * (n * sXY - sX * sY)
            / ((n * sX2 - sX * sX) * (n * sY2 - sY * sY))
        · rw [if_pos h5]
          norm_num
        · rw [if_neg h5]
          push_neg at h5
          exact ⟨h3, h5⟩

/-- `r2OfSums` with positive X- and Y-variances is the squared correlation
coefficient (with a real square root, as in the float source) clamped to
`[0, 1]`. -/
lemma r2OfSums_correlation (n sX sY sXY sX2 sY2 : ℚ)
    (hX : 0 < n * sX2 - sX * sX) (hY : 0 < n * sY2 - sY * sY) :
    ((r2OfSums n sX sY sXY sX2 sY2 : ℚ) : ℝ)
      = max 0 (min 1 ((((n * sXY - sX * sY : ℚ) : ℝ)
          / Real.sqrt ((((n * sX2 - sX * sX) * (n * sY2 - sY * sY) : ℚ)) : ℝ)) ^ 2)) := by
  have hprod : (0 : ℚ) < (n * sX2 - sX * sX) * (n * sY2 - sY * sY) := mul_pos hX hY
  have hprodR : (0 : ℝ) < (((n * sX2 - sX * sX) * (n * sY2 - sY * sY) : ℚ) : ℝ) := by
    exact_mod_cast hprod
  rw [div_sqrt_sq_eq _ _ hprodR]
  have hr2 : (0 : ℚ) ≤ (n * sXY - sX * sY) * (n * sXY - sX * sY)
      / ((n * sX2 - sX * sX) * (n * sY2 - sY * sY)) :=
    div_nonneg (mul_self_nonneg _) hprod.le
  have hcast : (((n * sXY - sX * sY) * (n * sXY - sX * sY)
      / ((n * sX2 - sX * sX) * (n * sY2 - sY * sY)) : ℚ) : ℝ)
      = ((n * sXY - sX * sY : ℚ) : ℝ) ^ 2
        / (((n * sX2 - sX * sX) * (n * sY2 - sY * sY) : ℚ) : ℝ) := by
    push_cast
    ring
  rw [← hcast]
  simp only [r2OfSums]
  rw [if_neg (ne_of_gt hX), if_neg (ne_of_gt hY), if_neg (not_lt.mpr hr2)]
  by_cases hgt : 1 < (n * sXY - sX * sY) * (n * sXY - sX * sY)
      / ((n * sX2 - sX * sX) * (n * sY2 - sY * sY))
  · rw [if_pos hgt]
    rw [min_eq_left (by exact_mod_cast hgt.le)]
    rw [max_eq_right (by norm_num : (0 : ℝ) ≤ 1)]
    norm_num
  · rw [if_neg hgt]
    rw [min_eq_right (by exact_mod_cast not_lt.mp hgt)]
    rw [max_eq_right (by exact_mod_cast hr2)]

/-- **C4**: `calculateR2` returns 1 for fewer than 2 samples; the regression
body returns 0 whenever the index variance is zero (a defensive branch —
`varX_pos` shows it is unreachable for the actual 1-based index sums);
returns 1 when the Y-variance is zero, with no division by zero; always
lies in `[0, 1]`; and in the main case equals the squared correlation
coefficient of the least-squares regression clamped to `[0, 1]`. -/
theorem calculateR2_spec :
    (∀ samples : List SampleData, samples.length < 2 → calculateR2 samples = 1) ∧
    (∀ n sX sY sXY sX2 sY2 : ℚ, n * sX2 - sX * sX = 0 →
      r2OfSums n sX sY sXY sX2 sY2 = 0) ∧
    (∀ samples : List SampleData, 2 ≤ samples.length →
      (samples.length : ℚ) * sumY2Of (samples.map microsOf)
          - sumYOf (samples.map microsOf) * sumYOf (samples.map microsOf) = 0 →
      calculateR2 samples = 1) ∧
    (∀ samples : List SampleData,
      0 ≤ calculateR2 samples ∧ calculateR2 samples ≤ 1) ∧
    (∀ samples : List SampleData, 2 ≤ samples.length →
      (samples.length : ℚ) * sumY2Of (samples.map microsOf)
          - sumYOf (samples.map microsOf) * sumYOf (samples.map microsOf) ≠ 0 →
      R2AsCorrelation samples) := by
  refine ⟨?_, ?_, ?_, ?_, ?_⟩
  · intro s hs
    simp only [calculateR2]
    rw [if_pos hs]
  · intro n sX sY sXY sX2 sY2 hden
    simp only [r2OfSums]
    rw [if_pos hden]
  · intro s h2 hY
    have hlen : (s.map microsOf).length = s.length := List.length_map _ _
    have hX := varX_pos (s.map microsOf) (by rw [hlen]; exact h2)
    rw [hlen] at hX
    simp only [calculateR2, r2OfSums]
    rw [if_neg (not_lt.mpr h2), if_neg (ne_of_gt hX), if_pos hY]
  · intro s
    by_cases hs : s.length < 2
    · simp only [calculateR2]
      rw [if_pos hs]
      norm_num
    · simp only [calculateR2]
      rw [if_neg hs]
      exact r2OfSums_mem_unit _ _ _ _ _ _
  · intro s h2 hY
    have hlen : (s.map microsOf).length = s.length := List.length_map _ _
    have hX := varX_pos (s.map microsOf) (by rw [hlen]; exact h2)
    rw [hlen] at hX
    have hYnn : (0 : ℚ) ≤ (s.length : ℚ) * sumY2Of (s.map microsOf)
        - sumYOf (s.map microsOf) * sumYOf (s.map microsOf) := by
      have hcs := list_sq_sum_le_card_mul_sum_sq (s.map microsOf)
      rw [hlen] at hcs
      linarith
    have hYpos : (0 : ℚ) < (s.length : ℚ) * sumY2Of (s.map microsOf)
        - sumYOf (s.map microsOf) * sumYOf (s.map microsOf) :=
      lt_of_le_of_ne hYnn (Ne.symm hY)
    simp only [R2AsCorrelation, calculateR2]
    rw [if_neg (not_lt.mpr h2)]
    exact r2OfSums_correlation _ _ _ _ _ _ hX hYpos

/-- Witness for **C4**: each hypothesis-bearing conjunct applied at concrete
inputs (empty list; a zero index-variance sum tuple; two equal samples for
zero Y-variance; two distinct samples for the correlation form). -/
theorem calculateR2_spec_witness :
    calculateR2 [] = 1 ∧
    r2OfSums 1 1 0 0 1 0 = 0 ∧
    calculateR2 [⟨1, 1000000⟩, ⟨2, 1000000⟩] = 1 ∧
    (0 ≤ calculateR2 [⟨1, 1000000⟩, ⟨2, 3000000⟩]
      ∧ calculateR2 [⟨1, 1000000⟩, ⟨2, 3000000⟩] ≤ 1) ∧
    R2AsCorrelation [⟨1, 1000000⟩, ⟨2, 3000000⟩] := by
  refine ⟨calculateR2_spec.1 [] (by decide),
    calculateR2_spec.2.1 1 1 0 0 1 0 (by norm_num),
    calculateR2_spec.2.2.1 [⟨1, 1000000⟩, ⟨2, 1000000⟩] (by decide) ?_,
    calculateR2_spec.2.2.2.1 [⟨1, 1000000⟩, ⟨2, 3000000⟩],
    calculateR2_spec.2.2.2.2 [⟨1, 1000000⟩, ⟨2, 3000000⟩] (by decide) ?_⟩
  · simp [sumY2Of, sumYOf, microsOf,
      show Int.tdiv 1000000 1000 = (1000 : ℤ) from by decide]
    norm_num
  · simp [sumY2Of, sumYOf, microsOf,
      show Int.tdiv 1000000 1000 = (1000 : ℤ) from by decide,
      show Int.tdiv 3000000 1000 = (3000 : ℤ) from by decide]
    norm_num

/-- **C10**: on an empty sample sequence `bootstrapResample` returns the zero
confidence interval, for every statistic function and resample count, and the
result does not depend on the statistic function (it is never evaluated). -/
theorem bootstrapResample_empty :
    ∀ (statFunc statFunc2 : List ℚ → ℚ) (numResamples : ℕ) (rng : ℕ → ℕ → ℕ),
      bootstrapResample [] statFunc numResamples rng
          = { LowerBound := 0, Estimate := 0, UpperBound := 0 } ∧
      bootstrapResample [] statFunc numResamples rng
          = bootstrapResample [] statFunc2 numResamples rng :=
  fun _ _ _ _ => ⟨rfl, rfl⟩

lemma map_eq_replicate_of_const {α : Type} (l : List α) (f : α → ℚ) (c : ℚ)
    (h : ∀ x, f x = c) : l.map f = List.replicate l.length c := by
  rw [show f = fun _ => c from funext h, List.map_const']

lemma insertionSort_replicate (n : ℕ) (a : ℚ) :
    List.insertionSort (· ≤ ·) (List.replicate n a) = List.replicate n a := by
  have hperm := List.perm_insertionSort (· ≤ ·) (List.replicate n a)
  refine List.eq_replicate_iff.mpr ⟨?_, ?_⟩
  · rw [hperm.length_eq, List.length_replicate]
  · intro b hb
    exact List.eq_of_mem_replicate (hperm.mem_iff.mp hb)

lemma getD_replicate_of_lt (n i : ℕ) (a : ℚ) (h : i < n) :
    (List.replicate n a).getD i 0 = a := by
  rw [List.getD_eq_getElem _ _ (by simpa using h)]
  simp

lemma sorted_getD_mono (l : List ℚ) (hl : List.Sorted (· ≤ ·) l) (i j : ℕ)
    (hij : i ≤ j) (hj : j < l.length) : l.getD i 0 ≤ l.getD j 0 := by
  have hi : i < l.length := lt_of_le_of_lt hij hj
  rw [List.getD_eq_getElem _ _ hi, List.getD_eq_getElem _ _ hj]
  have := hl.rel_get_of_le (a := ⟨i, hi⟩) (b := ⟨j, hj⟩) hij
  simpa using this

/-- The truncated percentile indices of `bootstrapResample`: the lower one is
non-negative, at most the upper one, and the upper one is below the resample
count. -/
lemma bootstrap_indices (n : ℕ) (hn : 1 ≤ n) :
    0 ≤ ⌊(n : ℚ) * ((1 - confidenceLevel) / 2)⌋ ∧
    ⌊(n : ℚ) * ((1 - confidenceLevel) / 2)⌋
      ≤ ⌊(n : ℚ) * (1 - (1 - confidenceLevel) / 2)⌋ ∧
    ⌊(n : ℚ) * (1 - (1 - confidenceLevel) / 2)⌋ < (n : ℤ) := by
  have hc2 : (1 - confidenceLevel) / 2 = 1 / 40 := by norm_num [confidenceLevel]
  have hn1 : (1 : ℚ) ≤ (n : ℚ) := by exact_mod_cast hn
  refine ⟨Int.floor_nonneg.mpr (by rw [hc2]; positivity), ?_, ?_⟩
  · exact Int.floor_le_floor (by rw [hc2]; nlinarith)
  · rw [Int.floor_lt]
    push_cast
    rw [hc2]
    nlinarith

lemma bootstrapResample_eq (samples : List SampleData) (statFunc : List ℚ → ℚ)
    (numResamples : ℕ) (rng : ℕ → ℕ → ℕ) (hl : ¬ samples.length = 0) :
    bootstrapResample samples statFunc numResamples rng
      = { LowerBound := (List.insertionSort (· ≤ ·)
            (bootstrapStatsOf samples statFunc numResamples rng)).getD
              (lowerIdxOf numResamples).toNat 0,
          Estimate := statFunc (samples.map microsOf),
          UpperBound := (List.insertionSort (· ≤ ·)
            (bootstrapStatsOf samples statFunc numResamples rng)).getD
              (upperIdxOf numResamples).toNat 0 } := by
  simp only [bootstrapResample, bootstrapStatsOf, lowerIdxOf, upperIdxOf]
  rw [if_neg hl]

lemma bootstrap_idx_bounds (n : ℕ) (hn : 1 ≤ n) :
    (lowerIdxOf n).toNat ≤ (upperIdxOf n).toNat ∧ (upperIdxOf n).toNat < n := by
  obtain ⟨hlo, hle, hup⟩ := bootstrap_indices n hn
  simp only [lowerIdxOf, upperIdxOf]
  rw [if_neg (not_lt.mpr hlo), if_neg (not_le.mpr hup)]
  omega

lemma sorted_stats_length (samples : List SampleData) (statFunc : List ℚ → ℚ)
    (numResamples : ℕ) (rng : ℕ → ℕ → ℕ) :
    (List.insertionSort (· ≤ ·)
      (bootstrapStatsOf samples statFunc numResamples rng)).length = numResamples := by
  rw [(List.perm_insertionSort _ _).length_eq]
  simp [bootstrapStatsOf]

/-- **C3** (amended): for every non-empty sample sequence, statistic function,
resample count ≥ 1 and sequence of resample choices: `lowerBound ≤
upperBound`, the estimate is the statistic of the original (non-resampled)
sample, and when all elapsed-time values are identical the three fields
coincide.  (The estimate need not lie between the bounds for arbitrary
resample choices — see the counterexample.) -/
theorem bootstrap_ci_bounds (samples : List SampleData) (statFunc : List ℚ → ℚ)
    (numResamples : ℕ) (rng : ℕ → ℕ → ℕ)
    (hne : samples ≠ []) (hn : 1 ≤ numResamples) :
    (bootstrapResample samples statFunc numResamples rng).LowerBound
        ≤ (bootstrapResample samples statFunc numResamples rng).UpperBound ∧
    (bootstrapResample samples statFunc numResamples rng).Estimate
        = statFunc (samples.map microsOf) ∧
    (∀ c : ℚ, (∀ t ∈ samples.map microsOf, t = c) →
      (bootstrapResample samples statFunc numResamples rng).LowerBound
          = statFunc (samples.map microsOf) ∧
      (bootstrapResample samples statFunc numResamples rng).UpperBound
          = statFunc (samples.map microsOf)) := by
  have hl : ¬ samples.length = 0 := by simpa using hne
  rw [bootstrapResample_eq samples statFunc numResamples rng hl]
  obtain ⟨hij, hlt⟩ := bootstrap_idx_bounds numResamples hn
  have hslen := sorted_stats_length samples statFunc numResamples rng
  refine ⟨?_, rfl, ?_⟩
  · exact sorted_getD_mono _ (List.sorted_insertionSort _ _) _ _ hij
      (by rw [hslen]; exact hlt)
  · intro c hc
    have hLpos : 0 < (samples.map microsOf).length := by
      rw [List.length_map]
      exact List.length_pos.mpr hne
    have htr : samples.map microsOf
        = List.replicate (samples.map microsOf).length c :=
      List.eq_replicate_iff.mpr ⟨rfl, hc⟩
    have hinner : ∀ i : ℕ,
        (List.range (samples.map microsOf).length).map (fun j =>
          (samples.map microsOf).getD (rng i j % (samples.map microsOf).length) 0)
          = samples.map microsOf := by
      intro i
      have h1 : ∀ j : ℕ,
          (samples.map microsOf).getD (rng i j % (samples.map microsOf).length) 0
            = c := by
        intro j
        have hidx : rng i j % (samples.map microsOf).length
            < (samples.map microsOf).length := Nat.mod_lt _ hLpos
        rw [List.getD_eq_getElem _ _ hidx]
        exact hc _ (List.getElem_mem hidx)
      rw [map_eq_replicate_of_const _ _ c h1, List.length_range]
      exact htr.symm
    have hstats : bootstrapStatsOf samples statFunc numResamples rng
        = List.replicate numResamples (statFunc (samples.map microsOf)) := by
      refine List.eq_replicate_iff.mpr ⟨?_, ?_⟩
      · simp [bootstrapStatsOf]
      · intro b hb
        simp only [bootstrapStatsOf] at hb
        obtain ⟨i, _, rfl⟩ := List.mem_map.mp hb
        exact congrArg statFunc (hinner i)
    rw [hstats, insertionSort_replicate]
    constructor
    · exact getD_replicate_of_lt _ _ _ (lt_of_le_of_lt hij hlt)
    · exact getD_replicate_of_lt _ _ _ hlt

/-- Witness for **C3** (amended): the theorem applied to one 1000µs sample
with the sum statistic, one resample, and the constant-0 choice function. -/
theorem bootstrap_ci_bounds_witness :
    (([⟨1, 1000000⟩] : List SampleData) ≠ []) ∧ 1 ≤ 1 ∧
    (bootstrapResample [⟨1, 1000000⟩] (fun l => l.sum) 1 (fun _ _ => 0)).LowerBound
      ≤ (bootstrapResample [⟨1, 1000000⟩] (fun l => l.sum) 1 (fun _ _ => 0)).UpperBound := by
  have h := bootstrap_ci_bounds [⟨1, 1000000⟩] (fun l => l.sum) 1 (fun _ _ => 0)
    (by decide) (by decide)
  exact ⟨by decide, by decide, h.1⟩

/-- Counterexample for **C3** as stated: with samples `[1µs, 3µs]`, the mean
statistic, the source resample count 100000, and the resample choice sequence
that always draws index 0, every bootstrap statistic is 1 while the estimate
is 2, so `estimate ≤ upperBound` fails. -/
theorem bootstrap_ci_cex :
    ¬ ((bootstrapResample [⟨1, 1000⟩, ⟨2, 3000⟩] (fun l => l.sum / (l.length : ℚ))
          bootstrapSamples (fun _ _ => 0)).LowerBound
        ≤ (bootstrapResample [⟨1, 1000⟩, ⟨2, 3000⟩] (fun l => l.sum / (l.length : ℚ))
          bootstrapSamples (fun _ _ => 0)).Estimate
      ∧ (bootstrapResample [⟨1, 1000⟩, ⟨2, 3000⟩] (fun l => l.sum / (l.length : ℚ))
          bootstrapSamples (fun _ _ => 0)).Estimate
        ≤ (bootstrapResample [⟨1, 1000⟩, ⟨2, 3000⟩] (fun l => l.sum / (l.length : ℚ))
          bootstrapSamples (fun _ _ => 0)).UpperBound) := by
  have htimes : ([⟨1, 1000⟩, ⟨2, 3000⟩] : List SampleData).map microsOf = [1, 3] := by
    simp [microsOf, show Int.tdiv 1000 1000 = (1 : ℤ) from by decide,
      show Int.tdiv 3000 1000 = (3 : ℤ) from by decide]
  have hstats : bootstrapStatsOf [⟨1, 1000⟩, ⟨2, 3000⟩]
      (fun l => l.sum / (l.length : ℚ)) bootstrapSamples (fun _ _ => 0)
      = List.replicate bootstrapSamples 1 := by
    refine List.eq_replicate_iff.mpr ⟨?_, ?_⟩
    · simp [bootstrapStatsOf]
    · intro b hb
      simp only [bootstrapStatsOf] at hb
      obtain ⟨i, _, rfl⟩ := List.mem_map.mp hb
      rw [htimes]
      norm_num [show List.range 2 = [0, 1] from by decide]
  obtain ⟨hij, hlt⟩ := bootstrap_idx_bounds bootstrapSamples
    (by norm_num [bootstrapSamples])
  rw [bootstrapResample_eq _ _ _ _ (by decide)]
  rw [hstats, insertionSort_replicate]
  rw [getD_replicate_of_lt _ _ _ (lt_of_le_of_lt hij hlt),
    getD_replicate_of_lt _ _ _ hlt]
  rw [htimes]
  norm_num

lemma totalCount_recordValue (h : Histogram) (v : ℤ) :
    (h.recordValue v).totalCount
      = if v < 0 ∨ h.highestTrackable < v then h.totalCount
        else h.totalCount + 1 := by
  rw [Histogram.recordValue]
  split_ifs <;> simp [Histogram.totalCount]

lemma highestTrackable_recordValue (h : Histogram) (v : ℤ) :
    (h.recordValue v).highestTrackable = h.highestTrackable := by
  rw [Histogram.recordValue]
  split_ifs <;> rfl

lemma opCount_applyRecord (c : Collector) (ev : OpKind × ℤ) (k : OpKind) :
    opCount (applyRecord c ev) k
      = opCount c k + (if ev.1 = k then 1 else 0) := by
  obtain ⟨o, v⟩ := ev
  cases o <;> (cases k <;>
    simp [applyRecord, opCount, Collector.RecordRead, Collector.RecordUpdate,
      Collector.RecordInsert, Collector.RecordScan, Collector.RecordDelete])

lemma opHist_applyRecord (c : Collector) (ev : OpKind × ℤ) (k : OpKind) :
    opHist (applyRecord c ev) k
      = if ev.1 = k then (opHist c k).recordValue ev.2 else opHist c k := by
  obtain ⟨o, v⟩ := ev
  cases o <;> (cases k <;>
    simp [applyRecord, opHist, Collector.RecordRead, Collector.RecordUpdate,
      Collector.RecordInsert, Collector.RecordScan, Collector.RecordDelete])

lemma opCount_applyRecords (c : Collector) (evs : List (OpKind × ℤ)) (k : OpKind) :
    opCount (applyRecords c evs) k
      = opCount c k + (evs.filter (fun ev => ev.1 = k)).length := by
  induction evs generalizing c with
  | nil => simp [applyRecords]
  | cons e t ih =>
    simp only [applyRecords, List.foldl_cons] at *
    rw [ih (applyRecord c e), opCount_applyRecord]
    by_cases he : e.1 = k <;> (simp [List.filter_cons, he]; try omega)

lemma opHist_highestTrackable_applyRecord (c : Collector) (ev : OpKind × ℤ)
    (k : OpKind) :
    (opHist (applyRecord c ev) k).highestTrackable
      = (opHist c k).highestTrackable := by
  rw [opHist_applyRecord]
  split_ifs with h
  · exact highestTrackable_recordValue _ _
  · rfl

lemma opHist_totalCount_applyRecords_inrange (c : Collector)
    (evs : List (OpKind × ℤ)) (k : OpKind)
    (hb : (opHist c k).highestTrackable = 60000000000)
    (h : ∀ ev ∈ evs, 0 ≤ ev.2 ∧ ev.2 ≤ 60000000000) :
    (opHist (applyRecords c evs) k).totalCount
      = (opHist c k).totalCount + (evs.filter (fun ev => ev.1 = k)).length := by
  induction evs generalizing c with
  | nil => simp [applyRecords]
  | cons e t ih =>
    have he := h e (List.mem_cons_self e t)
    have hstep : (opHist (applyRecord c e) k).totalCount
        = (opHist c k).totalCount + (if e.1 = k then 1 else 0) := by
      rw [opHist_applyRecord]
      by_cases hek : e.1 = k
      · rw [if_pos hek, if_pos hek, totalCount_recordValue,
          if_neg (by rw [hb]; omega)]
      · rw [if_neg hek, if_neg hek]
        omega
    simp only [applyRecords, List.foldl_cons] at *
    rw [ih (applyRecord c e)
      (by rw [opHist_highestTrackable_applyRecord]; exact hb)
      (fun ev hev => h ev (List.mem_cons_of_mem e hev)), hstep]
    by_cases hek : e.1 = k <;> (simp [List.filter_cons, hek]; try omega)

lemma opHist_totalCount_mono_step (c : Collector) (ev : OpKind × ℤ) (k : OpKind) :
    (opHist c k).totalCount ≤ (opHist (applyRecord c ev) k).totalCount := by
  rw [opHist_applyRecord]
  split_ifs with hek
  · rw [totalCount_recordValue]
    split_ifs <;> omega
  · exact le_refl _

lemma opHist_totalCount_mono (c : Collector) (evs : List (OpKind × ℤ)) (k : OpKind) :
    (opHist c k).totalCount ≤ (opHist (applyRecords c evs) k).totalCount := by
  induction evs generalizing c with
  | nil => exact le_refl _
  | cons e t ih =>
    simp only [applyRecords, List.foldl_cons] at *
    exact le_trans (opHist_totalCount_mono_step c e k) (ih (applyRecord c e))

/-- **C2** (amended): feeding the collector any sequence of recorded
latencies each within the histogram's trackable range `[0, 60s]` in
nanoseconds makes, for every operation kind, the atomic count and the
histogram's total count both equal to the number of recorded latencies of
that kind; and for arbitrary latencies both quantities are monotonically
non-decreasing over the collector's lifetime. -/
theorem collector_count_histogram_inrange :
    (∀ evs : List (OpKind × ℤ),
      (∀ ev ∈ evs, 0 ≤ ev.2 ∧ ev.2 ≤ 60000000000) →
      ∀ k : OpKind,
        opCount (applyRecords NewCollector evs) k
            = (evs.filter (fun ev => ev.1 = k)).length ∧
        (opHist (applyRecords NewCollector evs) k).totalCount
            = (evs.filter (fun ev => ev.1 = k)).length) ∧
    (∀ (c : Collector) (evs : List (OpKind × ℤ)) (k : OpKind),
      opCount c k ≤ opCount (applyRecords c evs) k ∧
      (opHist c k).totalCount ≤ (opHist (applyRecords c evs) k).totalCount) := by
  constructor
  · intro evs h k
    constructor
    · rw [opCount_applyRecords]
      cases k <;> simp [opCount, NewCollector]
    · rw [opHist_totalCount_applyRecords_inrange NewCollector evs k ?_ h]
      · cases k <;>
          simp [opHist, NewCollector, Histogram.totalCount, Histogram.new]
      · cases k <;> simp [opHist, NewCollector, Histogram.new]
  · intro c evs k
    constructor
    · rw [opCount_applyRecords]
      omega
    · exact opHist_totalCount_mono c evs k

/-- Witness for **C2** (amended): one in-range read latency. -/
theorem collector_count_histogram_inrange_witness :
    ((∀ ev ∈ ([(OpKind.read, (5000 : ℤ))] : List (OpKind × ℤ)),
        0 ≤ ev.2 ∧ ev.2 ≤ 60000000000) ∧
      opCount (applyRecords NewCollector [(OpKind.read, 5000)]) OpKind.read = 1 ∧
      (opHist (applyRecords NewCollector [(OpKind.read, 5000)])
        OpKind.read).totalCount = 1) := by
  have hin : ∀ ev ∈ ([(OpKind.read, (5000 : ℤ))] : List (OpKind × ℤ)),
      0 ≤ ev.2 ∧ ev.2 ≤ 60000000000 := by decide
  have h := collector_count_histogram_inrange.1 [(OpKind.read, 5000)] hin OpKind.read
  exact ⟨hin, by simpa using h.1, by simpa using h.2⟩

/-- Counterexample for **C2** as stated: a single read latency of 100 seconds
(100×10⁹ ns) exceeds the histogram's maximum trackable value of 60 seconds,
so the read count becomes 1 while the read histogram's total count stays 0 —
`histogram.totalCount == count` fails for an arbitrary-duration latency. -/
theorem collector_count_histogram_cex :
    (NewCollector.RecordRead 100000000000).readCount = 1 ∧
    (NewCollector.RecordRead 100000000000).readLatency.totalCount = 0 := by
  decide

/-- **C7**: `RecordReadWithAmp` with amplification ≤ 0 leaves `readAmpCount`
and `readAmpSum` unchanged while still incrementing the read count and
passing the latency to the read histogram; with amplification > 0 it
additionally increments `readAmpCount` and adds the amplification to
`readAmpSum`. -/
theorem recordReadWithAmp_frame (c : Collector) (latency readAmp : ℤ) :
    (readAmp ≤ 0 →
      (c.RecordReadWithAmp latency readAmp).readAmpCount = c.readAmpCount ∧
      (c.RecordReadWithAmp latency readAmp).readAmpSum = c.readAmpSum ∧
      (c.RecordReadWithAmp latency readAmp).readCount = c.readCount + 1 ∧
      (c.RecordReadWithAmp latency readAmp).readLatency
          = c.readLatency.recordValue latency) ∧
    (0 < readAmp →
      (c.RecordReadWithAmp latency readAmp).readAmpCount = c.readAmpCount + 1 ∧
      ((c.RecordReadWithAmp latency readAmp).readAmpSum : ℤ)
          = (c.readAmpSum : ℤ) + readAmp ∧
      (c.RecordReadWithAmp latency readAmp).readCount = c.readCount + 1 ∧
      (c.RecordReadWithAmp latency readAmp).readLatency
          = c.readLatency.recordValue latency) := by
  constructor
  · intro h
    simp [Collector.RecordReadWithAmp, Collector.RecordRead,
      if_neg (not_lt.mpr h)]
  · intro h
    simp [Collector.RecordReadWithAmp, Collector.RecordRead, if_pos h]
    omega

/-- Witness for **C7**: amplification −3 leaves the accumulators unchanged;
amplification 2 adds 2 to the sum. -/
theorem recordReadWithAmp_frame_witness :
    ((-3 : ℤ) ≤ 0 ∧
      (NewCollector.RecordReadWithAmp 5000 (-3)).readAmpCount
        = NewCollector.readAmpCount) ∧
    ((0 : ℤ) < 2 ∧
      ((NewCollector.RecordReadWithAmp 5000 2).readAmpSum : ℤ)
        = (NewCollector.readAmpSum : ℤ) + 2) := by
  exact ⟨⟨by decide, ((recordReadWithAmp_frame NewCollector 5000 (-3)).1
      (by decide)).1⟩,
    ⟨by decide, ((recordReadWithAmp_frame NewCollector 5000 2).2
      (by decide)).2.1⟩⟩

lemma indexRamp_succ (n : ℕ) :
    indexRamp (n + 1) = indexRamp n ++ [(n : ℤ) + 1] := by
  simp [indexRamp, List.range_succ]

lemma plotsInv_new : PlotsInv NewBenchmarkPlots := by
  intro k
  simp [NewBenchmarkPlots, indexRamp]

lemma samples_addSample (bp : BenchmarkPlots) (op : String) (t : ℤ) (k : String) :
    (bp.AddSample op t).samples k
      = bp.samples k ++ (if k = op
          then [{ SampleIndex := bp.sampleCounters op + 1, TotalTime := t }]
          else []) := by
  simp only [BenchmarkPlots.AddSample]
  by_cases hk : k = op
  · subst hk
    rw [if_pos rfl, if_pos rfl]
  · rw [if_neg hk, if_neg hk, List.append_nil]

lemma counters_addSample (bp : BenchmarkPlots) (op : String) (t : ℤ) (k : String) :
    (bp.AddSample op t).sampleCounters k
      = if k = op then bp.sampleCounters op + 1 else bp.sampleCounters k := rfl

lemma plotsInv_addSample (bp : BenchmarkPlots) (op : String) (t : ℤ)
    (h : PlotsInv bp) : PlotsInv (bp.AddSample op t) := by
  intro k
  obtain ⟨hcop, hiop⟩ := h op
  rw [samples_addSample, counters_addSample]
  by_cases hk : k = op
  · subst hk
    rw [if_pos rfl, if_pos rfl]
    constructor
    · rw [List.length_append, List.length_cons, List.length_nil, hcop]
      push_cast
      ring
    · rw [List.map_append, List.length_append, hiop, List.length_cons,
        List.length_nil, indexRamp_succ]
      simp [hcop]
  · obtain ⟨hc, hi⟩ := h k
    rw [if_neg hk, if_neg hk, List.append_nil]
    exact ⟨hc, hi⟩

lemma plotsInv_addSamples (bp : BenchmarkPlots) (evs : List (String × ℤ))
    (h : PlotsInv bp) : PlotsInv (addSamples bp evs) := by
  induction evs generalizing bp with
  | nil => exact h
  | cons e t ih =>
    simp only [addSamples, List.foldl_cons] at *
    exact ih (bp.AddSample e.1 e.2) (plotsInv_addSample bp e.1 e.2 h)

lemma addSamples_append_only (bp : BenchmarkPlots) (evs : List (String × ℤ))
    (k : String) :
    ∃ tail : List SampleData,
      (addSamples bp evs).samples k = bp.samples k ++ tail := by
  induction evs generalizing bp with
  | nil => exact ⟨[], (List.append_nil _).symm⟩
  | cons e t ih =>
    simp only [addSamples, List.foldl_cons] at *
    obtain ⟨tl, htl⟩ := ih (bp.AddSample e.1 e.2)
    rw [htl, samples_addSample]
    exact ⟨_, (List.append_assoc _ _ tl)⟩

lemma length_addSamples (bp : BenchmarkPlots) (evs : List (String × ℤ))
    (k : String) :
    ((addSamples bp evs).samples k).length
      = (bp.samples k).length + (evs.filter (fun e => e.1 = k)).length := by
  induction evs generalizing bp with
  | nil => simp [addSamples]
  | cons e t ih =>
    simp only [addSamples, List.foldl_cons] at *
    rw [ih (bp.AddSample e.1 e.2), samples_addSample]
    by_cases he : e.1 = k
    · rw [if_pos he.symm]
      simp [List.filter_cons, he]
      omega
    · rw [if_neg fun hk => he hk.symm]
      simp [List.filter_cons, he]

/-- **C6**: feeding the store any sequence of labelled samples gives, for
every label, exactly as many stored entries as samples fed for that label,
with `sampleIndex` values exactly `1..N` in insertion-completion order and
the counter equal to N; and entries are never removed (the stored sequence
only ever grows by appending). -/
theorem addSample_sequence_indices :
    (∀ (evs : List (String × ℤ)) (label : String),
      ((addSamples NewBenchmarkPlots evs).samples label).length
          = (evs.filter (fun e => e.1 = label)).length ∧
      (addSamples NewBenchmarkPlots evs).sampleCounters label
          = (((addSamples NewBenchmarkPlots evs).samples label).length : ℤ) ∧
      ((addSamples NewBenchmarkPlots evs).samples label).map
          (fun s => s.SampleIndex)
          = indexRamp ((addSamples NewBenchmarkPlots evs).samples label).length) ∧
    (∀ (bp : BenchmarkPlots) (evs : List (String × ℤ)) (k : String),
      ∃ tail : List SampleData,
        (addSamples bp evs).samples k = bp.samples k ++ tail) := by
  constructor
  · intro evs label
    have hinv := plotsInv_addSamples NewBenchmarkPlots evs plotsInv_new
    obtain ⟨hc, hi⟩ := hinv label
    refine ⟨?_, hc, hi⟩
    rw [length_addSamples]
    simp [NewBenchmarkPlots]
  · exact addSamples_append_only

/-- **C9**: every tracking decorator — the five `OperationTracker` methods
and the five `TrackedDB` methods — returns exactly the result and error
produced by the delegate call, unchanged, for every delegate outcome. -/
theorem tracking_passthrough {α β ε : Type} (result : α) (scanResult : β)
    (err : Option ε) (start now : ℤ) (st : TrackerState) (c : Collector) :
    (OperationTracker.Read result err start now st).1 = (result, err) ∧
    (OperationTracker.Scan scanResult err start now st).1 = (scanResult, err) ∧
    (OperationTracker.Insert err start now st).1 = err ∧
    (OperationTracker.Update err start now st).1 = err ∧
    (OperationTracker.Delete err start now st).1 = err ∧
    (TrackedDB.Read result err start now c).1 = (result, err) ∧
    (TrackedDB.Scan scanResult err start now c).1 = (scanResult, err) ∧
    (TrackedDB.Insert err start now c).1 = err ∧
    (TrackedDB.Update err start now c).1 = err ∧
    (TrackedDB.Delete err start now c).1 = err :=
  ⟨rfl, rfl, rfl, rfl, rfl, rfl, rfl, rfl, rfl, rfl⟩
